import Mathlib

/-!
# Shallow embedding of the scipp core (dimension-labeled arrays with units and variances)

This file embeds the parts of the scipp source needed to settle the frozen claims:
the 1-D histogramming kernel (`scipp::core::element::histogram`), the `ViewIndex`
iteration state, the accumulate entry point, the variable factory dispatch, and the
Dataset arithmetic fixed by the Dataset tests (broadcast addition, variance
propagation, scalar assignment, unary minus, binned concatenation).

Machine doubles are modelled as rationals (`ℚ`); signed indices as `Int`/`Nat`.
-/

namespace Scipp

/-- A physical unit, modelled as an exponent vector over the two base quantities the
claims mention (length in metres and counts). Multiplication adds exponents; the
dimensionless identity has all exponents zero. -/
structure SUnit where
  metre : Int
  counts : Int
deriving DecidableEq

/-- Unit composition (`Unit::operator*`). -/
def SUnit.mul (a b : SUnit) : SUnit := ⟨a.metre + b.metre, a.counts + b.counts⟩

/-- The unit `m`. -/
def unit_m : SUnit := ⟨1, 0⟩

/-- The unit `m²`. -/
def unit_m2 : SUnit := ⟨2, 0⟩

/-- The unit `counts`. -/
def unit_counts : SUnit := ⟨0, 1⟩

/-- The dimensionless unit (`units::one` / `units::dimensionless`). -/
def unit_one : SUnit := ⟨0, 0⟩

/-- The error taxonomy of the library (meaning-level, spec §4.H). -/
inductive ScippError where
  | UnitError
  | VariancesError
  | TypeError
  | DimensionError
  | DimensionMismatchError
  | HistogramError
deriving DecidableEq

/-! ## The 1-D histogram kernel (`scipp::core::element::histogram`, src/unnamed/part_001) -/

/-- Output accumulator of the histogram kernel: parallel `value` and `variance`
arrays (the `data.value[b]` / `data.variance[b]` spans of the kernel). -/
structure WeightedData where
  value : List ℚ
  variance : List ℚ
deriving DecidableEq

/-- `data.value[b] += w; data.variance[b] += v;` of the kernel body. -/
def WeightedData.addAt (d : WeightedData) (b : Nat) (w v : ℚ) : WeightedData :=
  ⟨d.value.set b (d.value.getD b 0 + w), d.variance.set b (d.variance.getD b 0 + v)⟩

/-- `std::upper_bound(edges.begin(), edges.end(), x) - edges.begin()` for a sorted
list: the index of the first edge strictly greater than `x`, i.e. the length of the
prefix of edges `≤ x`. -/
def upperBound (edges : List ℚ) (x : ℚ) : Nat :=
  (edges.takeWhile (fun e => decide (e ≤ x))).length

/-- Helper for `is_linspace`: all consecutive spacings equal `d`. -/
def constantSpacing (d : ℚ) : List ℚ → Bool
  | [] => true
  | [_] => true
  | a :: b :: rest => decide (b - a = d) && constantSpacing d (b :: rest)

/-- Modelled from the spec: `scipp::numeric::is_linspace` (numeric.h is not among the
sources). The spec calls the edge array linear when it has constant spacing
(§4.F: "If the edge array is detected as linear (constant spacing)"); at least two
edges with positive span are required for the `scale` of the linear path to exist. -/
def is_linspace (edges : List ℚ) : Bool :=
  match edges with
  | e0 :: e1 :: rest =>
    decide (e0 < (e1 :: rest).getLastD e1) && constantSpacing (e1 - e0) (e0 :: e1 :: rest)
  | _ => false

/-- Modelled from the spec: `core::linear_edge_params(edges)` returns
`(offset, nbin, scale)` with `offset` the first edge, `nbin` the number of bins and
`scale` such that `(x - offset) * scale` is the fractional bin index
(spec §4.F: `bin = floor((x - offset) * scale)`). -/
def linear_edge_params (edges : List ℚ) : ℚ × Nat × ℚ :=
  let offset := edges.headD 0
  let nbin := edges.length - 1
  (offset, nbin, (nbin : ℚ) / (edges.getLastD 0 - offset))

/-- Modelled from the spec: `core::expect::histogram::sorted_edges` requires the edge
array to be sorted ascending (§4.F: "require the edge array to be sorted ascending
(HistogramError otherwise)"). -/
def sorted_edges : List ℚ → Bool
  | [] => true
  | [_] => true
  | a :: b :: rest => decide (a ≤ b) && sorted_edges (b :: rest)

/-- The value part of `scipp::core::element::histogram`
(src/unnamed/part_001, lines 40-67): the output is zeroed, then if the edges are
linear each event `x` with `bin = (x - offset) * scale` satisfying
`bin >= 0.0 && bin < nbin` adds its weight/variance at `static_cast<index>(bin)`
(truncation, which on the accepted non-negative range is the floor); otherwise the
edges must be sorted and each event is placed by `upper_bound`, accepted when the
iterator is neither `end` nor `begin`, at index `it - begin - 1`. -/
def histogram (events : List ℚ) (weights : WeightedData) (edges : List ℚ) :
    Except ScippError WeightedData :=
  let nbin := edges.length - 1
  let init : WeightedData := ⟨List.replicate nbin 0, List.replicate nbin 0⟩
  if is_linspace edges then
    let p := linear_edge_params edges
    Except.ok <| (List.range events.length).foldl (fun data i =>
      let x := events.getD i 0
      let bin : ℚ := (x - p.1) * p.2.2
      if 0 ≤ bin ∧ bin < (nbin : ℚ) then
        data.addAt (⌊bin⌋).toNat (weights.value.getD i 0) (weights.variance.getD i 0)
      else data) init
  else if sorted_edges edges then
    Except.ok <| (List.range events.length).foldl (fun data i =>
      let x := events.getD i 0
      let it := upperBound edges x
      if it ≠ edges.length ∧ it ≠ 0 then
        data.addAt (it - 1) (weights.value.getD i 0) (weights.variance.getD i 0)
      else data) init
  else
    Except.error ScippError.HistogramError

/-- The histogramming algorithm the way the claim words it: on linear edges the bin
is `floor((x - offset) * scale)` and an event is accepted iff `0 ≤ bin < nbin` as a
condition on the floored integer; on non-linear edges, sorted ascending is required
(`HistogramError` otherwise) and the bin index is `it - begin - 1` from `upper_bound`,
accepted iff that index lies in `[0, nbin)`. -/
def histogramClaim (events : List ℚ) (weights : WeightedData) (edges : List ℚ) :
    Except ScippError WeightedData :=
  let nbin := edges.length - 1
  let init : WeightedData := ⟨List.replicate nbin 0, List.replicate nbin 0⟩
  if is_linspace edges then
    let p := linear_edge_params edges
    Except.ok <| (List.range events.length).foldl (fun data i =>
      let x := events.getD i 0
      let bin : Int := ⌊(x - p.1) * p.2.2⌋
      if 0 ≤ bin ∧ bin < (nbin : Int) then
        data.addAt bin.toNat (weights.value.getD i 0) (weights.variance.getD i 0)
      else data) init
  else if sorted_edges edges then
    Except.ok <| (List.range events.length).foldl (fun data i =>
      let x := events.getD i 0
      let b : Int := (upperBound edges x : Int) - 1
      if 0 ≤ b ∧ b < (nbin : Int) then
        data.addAt b.toNat (weights.value.getD i 0) (weights.variance.getD i 0)
      else data) init
  else
    Except.error ScippError.HistogramError

/-- The unit part of `scipp::core::element::histogram`
(src/unnamed/part_001, lines 69-82): the edge unit must equal the event unit and the
weights unit must be `counts` or `dimensionless`, else `UnitError`; the result unit is
the weights unit. -/
def histogramUnit (events_unit weights_unit edge_unit : SUnit) :
    Except ScippError SUnit :=
  if events_unit ≠ edge_unit then Except.error ScippError.UnitError
  else if weights_unit ≠ unit_counts ∧ weights_unit ≠ unit_one then
    Except.error ScippError.UnitError
  else Except.ok weights_unit

/-- Modelled from the spec: the transform engine applying the histogram kernel
evaluates the unit operator before any value is touched (§4.D: "The Unit is decided
before any value is touched; if `f_u` throws, no buffer is allocated"), so a unit
failure produces no output at all. -/
def histogramWithUnits (events : List ℚ) (events_unit : SUnit)
    (weights : WeightedData) (weights_unit : SUnit)
    (edges : List ℚ) (edge_unit : SUnit) :
    Except ScippError (WeightedData × SUnit) := do
  let u ← histogramUnit events_unit weights_unit edge_unit
  let d ← histogram events weights edges
  pure (d, u)

/-! ## Dimensions, row-major coordinates, broadcast views (spec §3, §4.A, §4.B) -/

/-- A dimension label. -/
inductive DimL where
  | X
  | Y
  | Z
  | Time
deriving DecidableEq

/-- An ordered sequence of `(Dim, length)` pairs, outermost first (spec §3). -/
abbrev Dims := List (DimL × Nat)

/-- The extents of a `Dims`, outermost first. -/
def dimsShape (ds : Dims) : List Nat := ds.map (fun p => p.2)

/-- Product of a list of extents. -/
def listProd (l : List Nat) : Nat := l.foldl (fun a n => a * n) 1

/-- `Dimensions::volume`. -/
def volume (ds : Dims) : Nat := listProd (dimsShape ds)

/-- Row-major decomposition of a flat position into per-dimension coordinates
(outermost coordinate first). -/
def rowMajorCoords : List Nat → Nat → List Nat
  | [], _ => []
  | _ :: rest, p => p / listProd rest :: rowMajorCoords rest (p % listProd rest)

/-- Row-major flattening of per-dimension coordinates (inverse of
`rowMajorCoords` on in-range coordinates). -/
def flatIndex : List Nat → List Nat → Nat
  | s :: srest, c :: crest =>
    let _ := s
    c * listProd srest + flatIndex srest crest
  | _, _ => 0

/-- The coordinate of dimension `d` in a coordinate tuple parallel to `ds`. -/
def coordLookup : Dims → List Nat → DimL → Nat
  | (d', _) :: ds, c :: cs, d => if d' = d then c else coordLookup ds cs d
  | _, _, _ => 0

/-- Position in `src` that flat position `p` of `target` reads through a broadcast
view: dimensions absent from `src` get stride 0, dimensions of `src` keep their
row-major strides within `src` (spec §4.A `broadcast_to`). -/
def broadcastIndex (target src : Dims) (p : Nat) : Nat :=
  let cs := rowMajorCoords (dimsShape target) p
  flatIndex (dimsShape src) (src.map (fun q => coordLookup target cs q.1))

/-- `Dimensions::includes`-style check: every `(Dim, length)` pair of `sub` occurs in
`sup`. -/
def subdims (sub sup : Dims) : Bool := sub.all (fun p => decide (p ∈ sup))

/-- A dense variable: unit, dimensions, flat row-major values. -/
structure VarU where
  unit : SUnit
  dims : Dims
  values : List ℚ
deriving DecidableEq

/-- Modelled from the spec: broadcast addition of a data item (`Dataset operator+=`,
fixed by the Dataset.operator_plus_equal_broadcast test, src/unnamed/part_008 lines
483-500; the engine implementation is not among the sources). Addition requires
identical units (§4.D unit algebra), the right-hand side must be broadcastable to
the left's dims, and the right operand is read through a broadcast view (stride 0
along the missing dims). -/
def plusEqualBroadcast (a b : VarU) : Except ScippError VarU :=
  if a.unit ≠ b.unit then Except.error ScippError.UnitError
  else if ¬ subdims b.dims a.dims then Except.error ScippError.DimensionError
  else Except.ok { a with values := (List.range (volume a.dims)).map (fun p =>
    a.values.getD p 0 + b.values.getD (broadcastIndex a.dims b.dims p) 0) }

/-! ## Scalar items with a variance channel (Dataset arithmetic, src/unnamed/part_008) -/

/-- A scalar element with value, an optional variance, and a unit. -/
structure ScalarVV where
  value : ℚ
  variance : Option ℚ
  unit : SUnit
deriving DecidableEq

/-- Modelled from the spec: element multiplication with variance propagation by the
first-order uncorrelated formula `Var(a·b) = Var(a)·b² + Var(b)·a²` and unit
composition (§4.D; behavior fixed by Dataset.operator_times_equal_with_uncertainty,
src/unnamed/part_008 lines 573-586, and
Dataset.operator_times_equal_uncertainty_failures, lines 588-620 — the operator
implementation itself is not among the sources). Mixing one variance-carrying
operand with one without fails with VariancesError ("either both or none of the
operands must have a variance"). -/
def timesWithVariance (a b : ScalarVV) : Except ScippError ScalarVV :=
  match a.variance, b.variance with
  | some va, some vb =>
    Except.ok ⟨a.value * b.value, some (va * b.value ^ 2 + vb * a.value ^ 2),
               a.unit.mul b.unit⟩
  | none, none => Except.ok ⟨a.value * b.value, none, a.unit.mul b.unit⟩
  | _, _ => Except.error ScippError.VariancesError

/-- Dataset `operator*=(scalar)` as fixed by the Dataset.binary_assign_with_scalar
test (src/unnamed/part_008, lines 1286-1314): the scalar is treated as having
variance 0, so the value is scaled by `s` and the variance by `s²`; the operation
succeeds also when the item carries a variance ("Scalar treated as having 0
variance, `*` affects variance"). The operator implementation is not among the
sources. -/
def timesEqualScalar (a : ScalarVV) (s : ℚ) : ScalarVV :=
  { a with value := a.value * s, variance := a.variance.map (fun va => va * s ^ 2) }

/-- Dataset `operator+=(scalar)` as fixed by the same test: the scalar contributes
variance 0, leaving the item's variance unchanged. -/
def plusEqualScalar (a : ScalarVV) (s : ℚ) : ScalarVV :=
  { a with value := a.value + s }

/-- A variable with values, an optional variance channel, and a unit. -/
structure VarV where
  values : List ℚ
  variances : Option (List ℚ)
  unit : SUnit
deriving DecidableEq

/-- Modelled from the spec: unary minus negates the values elementwise and leaves the
variance channel untouched (§4.C "Unary minus invariant"; behavior fixed by the
Dataset.unary_minus test, src/unnamed/part_008 lines 1269-1284 — the operator
implementation itself is not among the sources). -/
def unaryMinus (v : VarV) : VarV := { v with values := v.values.map (fun x => -x) }

/-! ## Binned variables (spec §4.F; tests in src/unnamed/part_004) -/

/-- A binned (bucketed) variable: per-bin `(begin, end)` index ranges into a shared
buffer along `binDim` (spec §3, binned form; buffers modelled as flat lists). -/
structure BinnedVar where
  indices : List (Nat × Nat)
  binDim : DimL
  buffer : List ℚ
deriving DecidableEq

/-- The slice `[b, e)` of a buffer. -/
def sliceList (l : List ℚ) (b e : Nat) : List ℚ := (l.drop b).take (e - b)

/-- The contents of bin `i`. -/
def BinnedVar.bin (v : BinnedVar) (i : Nat) : List ℚ :=
  sliceList v.buffer (v.indices.getD i (0, 0)).1 (v.indices.getD i (0, 0)).2

/-- Scaling a binned variable distributes into each bin's buffer slice
(spec §4.F: "Scaling (`*`) distributes into each bin's buffer"). -/
def scaleBinned (v : BinnedVar) (s : ℚ) : BinnedVar :=
  { v with buffer := v.buffer.map (fun x => x * s) }

/-- Modelled from the spec: `buckets::concatenate` for equal outer dimensions
(§4.F: "for each logical outer coordinate, produce a bin whose buffer slice is the
concatenation of `a`'s slice and `b`'s slice along `bin_dim`"; behavior fixed by
the DataArrayBucketTest.concatenate test, src/unnamed/part_004 lines 27-43 — the
implementation is not among the sources). The output indices are the consecutive
offsets of the concatenated bins over the new packed buffer. -/
def bucketsConcatenate (a b : BinnedVar) : Except ScippError BinnedVar :=
  if a.indices.length ≠ b.indices.length ∨ a.binDim ≠ b.binDim then
    Except.error ScippError.DimensionMismatchError
  else
    let bins := (List.range a.indices.length).map (fun i => a.bin i ++ b.bin i)
    let idxs := (bins.foldl (fun acc bl =>
      (acc.1 ++ [(acc.2, acc.2 + bl.length)], acc.2 + bl.length))
      (([] : List (Nat × Nat)), 0)).1
    Except.ok ⟨idxs, a.binDim, bins.flatten⟩

/-! ## Accumulate (src/variable/include/scipp/variable/accumulate.h) -/

/-- Extent of dimension `d` in `ds` (0 when absent). -/
def dimExtent (ds : Dims) (d : DimL) : Nat :=
  ((ds.find? (fun p => decide (p.1 = d))).getD (d, 0)).2

/-- Replace the extent of dimension `d`. -/
def setExtent (ds : Dims) (d : DimL) (n : Nat) : Dims :=
  ds.map (fun p => if p.1 = d then (p.1, n) else p)

/-- The coordinate along dimension `d` of flat position `p` of `ds`. -/
def coordAt (ds : Dims) (d : DimL) (p : Nat) : Nat :=
  coordLookup ds (rowMajorCoords (dimsShape ds) p) d

/-- The `Slice(dim, i, i+1)` view of a variable: the dimension is kept with extent 1
and the values are those whose coordinate along `d` is `i`. -/
def getSlice (v : VarU) (d : DimL) (i : Nat) : VarU :=
  { unit := v.unit, dims := setExtent v.dims d 1,
    values := ((List.range (volume v.dims)).filter
      (fun p => decide (coordAt v.dims d p = i))).map (fun p => v.values.getD p 0) }

/-- Write the values of slice `s` back into the positions of `v` whose coordinate
along `d` is `i`. -/
def writeSlice (v : VarU) (d : DimL) (i : Nat) (s : VarU) : VarU :=
  { v with values :=
    ((((List.range (volume v.dims)).filter
      (fun p => decide (coordAt v.dims d p = i))).zip s.values).foldl
      (fun vals pq => vals.set pq.1 pq.2) v.values) }

/-- Modelled from the spec: `in_place<false>::transform_data` (transform.h is not
among the sources). It applies the per-element operator over the inputs' broadcast
views and writes data only; unit propagation is no part of `transform_data` (the
`accumulate_in_place` doc comment in the source: "accumulate does not touch the
unit"). For an output whose dims are included in the input's dims, every input
element is folded into the output element it maps to under broadcasting, in
row-major walk order. -/
def transform_data (op : ℚ → ℚ → ℚ) (out other : VarU) : VarU :=
  { out with values := (List.range (volume other.dims)).foldl (fun vals p =>
      let q := broadcastIndex other.dims out.dims p
      vals.set q (op (vals.getD q 0) (other.values.getD p 0))) out.values }

/-- `detail::accumulate` / `accumulate_in_place`
(src/variable/include/scipp/variable/accumulate.h, lines 12-54): bail out to a plain
`transform_data` when the output is scalar or its dims are not included in the
input's; otherwise slice the outermost output dimension into blocks and run
`transform_data` per block (blocks modelled at the finest granularity, one outer
index per block). -/
def accumulate_in_place (op : ℚ → ℚ → ℚ) (var other : VarU) : VarU :=
  if var.dims.length = 0 ∨ ¬ dimsIncludes other.dims var.dims then
    transform_data op var other
  else
    let d := (var.dims.headD (DimL.X, 0)).1
    (List.range (dimExtent var.dims d)).foldl (fun acc i =>
      writeSlice acc d i (transform_data op (getSlice acc d i) (getSlice other d i)))
      var
where
  /-- `Dimensions::includes`: `b`'s pairs all occur in `a`. -/
  dimsIncludes (a b : Dims) : Bool := b.all (fun p => decide (p ∈ a))

/-! ## Variable factory and transform dispatch (spec §4.G,
src/variable/include/scipp/variable/variable_factory.h) -/

/-- Element-type identifiers (spec §3 DType); `custom` stands for a consumer type
with no registered maker. -/
inductive DTypeL where
  | float64
  | float32
  | int64
  | int32
  | boolean
  | str
  | vector3d
  | matrix3d
  | affineTransform
  | quaternion
  | timePoint
  | indexPair
  | custom (n : Nat)
deriving DecidableEq

/-- The element types registered with the variable factory at core initialization
(spec §4.G; the INSTANTIATE_ELEMENT_ARRAY_VARIABLE macro in
element_array_variable.tcc emplaces one maker per instantiated element type). -/
def registeredMakers : List DTypeL :=
  [DTypeL.float64, DTypeL.float32, DTypeL.int64, DTypeL.int32, DTypeL.boolean,
   DTypeL.str, DTypeL.vector3d, DTypeL.matrix3d, DTypeL.affineTransform,
   DTypeL.quaternion, DTypeL.timePoint, DTypeL.indexPair]

/-- A variable reduced to its element type tag, as seen by factory dispatch. -/
structure VarD where
  dtype : DTypeL
deriving DecidableEq

/-- Modelled from the spec: the `transform` dispatch for a variable whose DType has
no registered maker (§4.G: "behavior of `transform` for an unregistered DType is
TypeError"; transform.h is not among the sources). Dispatch validates the input's
element type against the registered makers before any output variable is created by
`VariableFactory::create`. -/
def transformDispatch (makers : List DTypeL) (v : VarD) : Except ScippError VarD :=
  if v.dtype ∈ makers then Except.ok v else Except.error ScippError.TypeError

/-! ## ViewIndex (src/unnamed/part_000, lines 44-148) -/

/-- `NDIM_MAX`, the fixed capacity of the per-dimension arrays. -/
def NDIM_MAX : Nat := 6

/-- The `ViewIndex` state: memory offset, per-level deltas, coordinates, extents,
strides (all stored inner dimension first), logical flat position `m_fullIndex`,
and rank `m_dims`. -/
structure ViewIndex where
  m_index : Int
  m_delta : List Int
  m_coord : List Int
  m_extent : List Int
  m_strides : List Int
  m_fullIndex : Int
  m_dims : Nat
deriving DecidableEq

/-- The loop body of `ViewIndex::increment_outer` (src/unnamed/part_000, lines
48-56): ripple-carry while `m_coord[d] == m_extent[d] && d < NDIM_MAX - 1`. The fuel
argument bounds the loop; `NDIM_MAX` steps always suffice since `d` increases. -/
def incrementOuterAux (v : ViewIndex) (d : Nat) : Nat → ViewIndex
  | 0 => v
  | Nat.succ fuel =>
    if v.m_coord.getD d 0 = v.m_extent.getD d 0 ∧ d < NDIM_MAX - 1 then
      incrementOuterAux
        { v with
          m_index := v.m_index + v.m_delta.getD (d + 1) 0,
          m_coord := ((v.m_coord.set (d + 1) (v.m_coord.getD (d + 1) 0 + 1)).set d 0) }
        (d + 1) fuel
    else v

/-- `ViewIndex::increment_outer`. -/
def ViewIndex.increment_outer (v : ViewIndex) : ViewIndex :=
  incrementOuterAux v 0 NDIM_MAX

/-- `ViewIndex::increment` (src/unnamed/part_000, lines 57-63): advance the offset by
`m_delta[0]`, step the innermost coordinate, ripple-carry on saturation, and advance
the logical position by exactly one. -/
def ViewIndex.increment (v : ViewIndex) : ViewIndex :=
  let w := { v with m_index := v.m_index + v.m_delta.getD 0 0,
                    m_coord := v.m_coord.set 0 (v.m_coord.getD 0 0 + 1) }
  let w := if w.m_coord.getD 0 0 = w.m_extent.getD 0 0 then w.increment_outer else w
  { w with m_fullIndex := w.m_fullIndex + 1 }

/-- Zero the first `n` entries of a list (`std::fill(begin, begin + n, 0)`). -/
def setPrefixZeros : List Int → Nat → List Int
  | l, 0 => l
  | [], _ => []
  | _ :: xs, Nat.succ n => 0 :: setPrefixZeros xs n

/-- `ViewIndex::set_to_end` (src/unnamed/part_000, lines 72-80), as written in the
source: the logical index is seeded with 0 and then multiplied by the extents of all
but the last dimension; the coordinates below the last dimension are zeroed; the
entries at position `m_dims` of the coordinate/extent/stride arrays are used for the
final coordinate and memory offset. -/
def ViewIndex.set_to_end (v : ViewIndex) : ViewIndex :=
  let fi : Int := (List.range (v.m_dims - 1)).foldl
    (fun acc dim => acc * v.m_extent.getD dim 0) 0
  let coord := setPrefixZeros v.m_coord (max (v.m_dims - 1) 0)
  let coord := coord.set v.m_dims (v.m_extent.getD v.m_dims 0)
  { v with m_fullIndex := fi, m_coord := coord,
           m_index := v.m_extent.getD v.m_dims 0 * v.m_strides.getD v.m_dims 0 }

/-- `ViewIndex::operator==` (src/unnamed/part_000, lines 87-89): equality is decided
by `m_fullIndex` alone. -/
def ViewIndex.eq (a b : ViewIndex) : Bool := decide (a.m_fullIndex = b.m_fullIndex)

/-- Pad a list of strides/extents to `NDIM_MAX` entries with zeros (the value-
initialized `std::array` members). -/
def padTo (l : List Int) (n : Nat) : List Int := l ++ List.replicate (n - l.length) 0

/-- Modelled from the spec: the `ViewIndex` constructor (only its declaration is
among the sources). Per §4.B it precomputes, inner dimension first, the extents of
the target dimensions and the per-level ripple-carry deltas from the strides:
stepping the innermost coordinate advances the offset by the innermost stride, and
the delta at level `d+1` is the stride at `d+1` minus extent·stride at level `d`
(undoing the contributions of the coordinates that just reset to 0). The logical
position starts at 0. `targetShape` and `strides` are given outermost first. -/
def viewIndexMk (targetShape : List Nat) (strides : List Int) : ViewIndex :=
  let extent := padTo (targetShape.reverse.map (fun k => (k : Int))) NDIM_MAX
  let sInner := padTo strides.reverse NDIM_MAX
  let delta := (List.range NDIM_MAX).map (fun d =>
    if d = 0 then sInner.getD 0 0
    else sInner.getD d 0 - extent.getD (d - 1) 0 * sInner.getD (d - 1) 0)
  { m_index := 0, m_delta := delta, m_coord := List.replicate NDIM_MAX 0,
    m_extent := extent, m_strides := sInner, m_fullIndex := 0,
    m_dims := targetShape.length }

/-- The number of `increment` steps a range-for loop performs before the running
index compares equal to `e` (with fuel; 0 when the fuel runs out). -/
def stepsUntil (v e : ViewIndex) : Nat → Nat
  | 0 => 0
  | Nat.succ fuel =>
    if ViewIndex.eq v e then 0 else stepsUntil (v.increment) e fuel + 1

end Scipp


/-! ## Helper lemmas -/

namespace Scipp

/-- `incrementOuterAux` never changes the logical flat position. -/
theorem incrementOuterAux_fullIndex (v : ViewIndex) (d fuel : Nat) :
    (incrementOuterAux v d fuel).m_fullIndex = v.m_fullIndex := by
  induction fuel generalizing v d with
  | zero => rfl
  | succ n ih =>
    unfold incrementOuterAux
    split
    · rw [ih]
    · rfl

/-- `ViewIndex::increment` advances the logical flat position by exactly one. -/
theorem increment_fullIndex (v : ViewIndex) :
    (v.increment).m_fullIndex = v.m_fullIndex + 1 := by
  unfold ViewIndex.increment ViewIndex.increment_outer
  dsimp only
  split
  · rw [incrementOuterAux_fullIndex]
  · rfl

end Scipp

/-! ## Claim theorems -/

namespace Scipp

/-- C10: `ViewIndex` equality is decided solely by the logical flat position
`m_fullIndex`, never by the memory offset `m_index`; each `increment` advances the
logical position by exactly one, and the walk follows the strides including
broadcast (stride 0). However, for the concrete view over Dims {X:2} with stride 1,
`set_to_end` as written computes the end logical position as 0 (its extent product
is seeded with 0 and it indexes the coordinate/stride arrays at `m_dims` instead of
`m_dims - 1`), so `begin == end` holds immediately and a range-for visits 0 logical
positions although the volume of the target dimensions is 2 (after 2 increments the
running index is at logical position 2, which the end marker should equal). -/
theorem viewindex_iteration_invariant :
    (∀ a b : ViewIndex, ViewIndex.eq a b = decide (a.m_fullIndex = b.m_fullIndex)) ∧
    (∀ v : ViewIndex, (v.increment).m_fullIndex = v.m_fullIndex + 1) ∧
    ViewIndex.eq { viewIndexMk [2] [1] with m_index := 5 } (viewIndexMk [2] [1])
      = true ∧
    (viewIndexMk [3, 2] [2, 1]).increment.increment.increment.m_index = 3 ∧
    (viewIndexMk [3] [0]).increment.m_index = 0 ∧
    (viewIndexMk [3] [0]).increment.m_fullIndex = 1 ∧
    (viewIndexMk [2] [1]).increment.increment.m_fullIndex = 2 ∧
    (viewIndexMk [2] [1]).m_fullIndex = 0 ∧
    (viewIndexMk [2] [1]).set_to_end.m_fullIndex = 0 ∧
    stepsUntil (viewIndexMk [2] [1]) ((viewIndexMk [2] [1]).set_to_end) 10 = 0 ∧
    volume [(DimL.X, 2)] = 2 := by
  refine ⟨fun a b => rfl, increment_fullIndex, ?_, ?_, ?_, ?_, ?_, ?_, ?_, ?_, ?_⟩
  all_goals decide

/-- C9: for every DType with no registered maker in the variable factory, the
`transform` dispatch on a variable of that DType fails with TypeError. -/
theorem transform_unregistered_dtype (v : VarD)
    (h : v.dtype ∉ registeredMakers) :
    transformDispatch registeredMakers v = Except.error ScippError.TypeError := by
  unfold transformDispatch
  simp [h]

/-- Witness for C9 at the concrete unregistered DType `custom 0`. -/
theorem transform_unregistered_dtype_witness :
    (VarD.mk (DTypeL.custom 0)).dtype ∉ registeredMakers ∧
    transformDispatch registeredMakers ⟨DTypeL.custom 0⟩ =
      Except.error ScippError.TypeError :=
  ⟨by decide, transform_unregistered_dtype ⟨DTypeL.custom 0⟩ (by decide)⟩

/-- C3: multiplication propagates variances by the first-order uncorrelated formula
`Var(a·b) = Var(a)·b² + Var(b)·a²` and composes units; in particular 3 (variance 2,
unit m) times 4 (variance 3, unit m) is 12 with variance 2·16 + 3·9 = 59 and
unit m². -/
theorem multiplication_variance_units :
    (∀ x y va vb u w, timesWithVariance ⟨x, some va, u⟩ ⟨y, some vb, w⟩ =
        Except.ok ⟨x * y, some (va * y ^ 2 + vb * x ^ 2), u.mul w⟩) ∧
    timesWithVariance ⟨3, some 2, unit_m⟩ ⟨4, some 3, unit_m⟩ =
      Except.ok ⟨12, some 59, unit_m2⟩ := by
  refine ⟨fun x y va vb u w => rfl, ?_⟩
  norm_num [timesWithVariance, SUnit.mul, unit_m, unit_m2]

/-- C5: unary minus negates the values elementwise while the variance channel (and
the unit) are unchanged; concretely on the Dataset.unary_minus test data. -/
theorem unary_minus_invariant :
    (∀ v : VarV, (unaryMinus v).values = v.values.map (fun x => -x) ∧
      (unaryMinus v).variances = v.variances ∧ (unaryMinus v).unit = v.unit) ∧
    unaryMinus ⟨[1, 2], some [4, 5], unit_one⟩ = ⟨[-1, -2], some [4, 5], unit_one⟩ := by
  refine ⟨fun v => ⟨rfl, rfl, rfl⟩, ?_⟩
  norm_num [unaryMinus]

end Scipp

namespace Scipp

/-- C4 counterexample: `d *= 2` on an item with variance 4 (and a scalar operand
without a variance channel) succeeds and scales the variance to 16 — a
multiplicative operation in which exactly one operand carries a variance channel
that does not fail and does modify the destination (the
Dataset.binary_assign_with_scalar test: "Scalar treated as having 0 variance, `*`
affects variance"). -/
theorem scalar_multiply_mixed_variance_succeeds :
    timesEqualScalar ⟨0, some 4, unit_one⟩ 2 = ⟨0, some 16, unit_one⟩ ∧
    timesEqualScalar ⟨0, some 4, unit_one⟩ 2 ≠ ⟨0, some 4, unit_one⟩ := by
  constructor
  · norm_num [timesEqualScalar]
  · norm_num [timesEqualScalar]

/-- C4 (amended): a multiplicative operation between two Dataset items of which
exactly one carries a variance channel fails with VariancesError (and, returning an
error, leaves no result); a plain scalar operand is the exception: it is treated as
having variance 0 also in multiplicative operations, scaling the variance by the
scalar squared, while purely additive scalar operations leave the variance
unchanged. -/
theorem variance_mixing_rules :
    (∀ a b : ScalarVV, a.variance.isSome ≠ b.variance.isSome →
        timesWithVariance a b = Except.error ScippError.VariancesError) ∧
    (∀ x va s u, timesEqualScalar ⟨x, some va, u⟩ s = ⟨x * s, some (va * s ^ 2), u⟩) ∧
    (∀ x s u, timesEqualScalar ⟨x, none, u⟩ s = ⟨x * s, none, u⟩) ∧
    (∀ a s, plusEqualScalar a s = ⟨a.value + s, a.variance, a.unit⟩) := by
  refine ⟨?_, fun x va s u => rfl, fun x s u => rfl, fun a s => rfl⟩
  intro a b h
  obtain ⟨av, aw, au⟩ := a
  obtain ⟨bv, bw, bu⟩ := b
  cases aw <;> cases bw <;> simp_all [timesWithVariance]

/-- Witness for the amended C4 at the spec's S3 scenario: a = 3 with variance 2,
b = 4 without variance, `a *= b` fails with VariancesError. -/
theorem variance_mixing_rules_witness :
    (ScalarVV.mk 3 (some 2) unit_m).variance.isSome ≠
      (ScalarVV.mk 4 none unit_m).variance.isSome ∧
    timesWithVariance ⟨3, some 2, unit_m⟩ ⟨4, none, unit_m⟩ =
      Except.error ScippError.VariancesError :=
  ⟨by decide, variance_mixing_rules.1 ⟨3, some 2, unit_m⟩ ⟨4, none, unit_m⟩ (by decide)⟩

/-- C7: bin-wise concatenation of binned variables: with `a` having indices
[(0,2),(2,4)] over buffer [1,2,3,4] along X and `b = a * 3`, `concatenate(a, b)` has
indices [(0,4),(4,8)] over buffer [1,2,3,6,3,4,9,12], and each output bin is `a`'s
slice followed by `b`'s slice. -/
theorem binned_concatenate :
    bucketsConcatenate ⟨[(0, 2), (2, 4)], DimL.X, [1, 2, 3, 4]⟩
        (scaleBinned ⟨[(0, 2), (2, 4)], DimL.X, [1, 2, 3, 4]⟩ 3) =
      Except.ok ⟨[(0, 4), (4, 8)], DimL.X, [1, 2, 3, 6, 3, 4, 9, 12]⟩ ∧
    (∀ i : Fin 2,
      BinnedVar.bin ⟨[(0, 4), (4, 8)], DimL.X, [1, 2, 3, 6, 3, 4, 9, 12]⟩ i =
        BinnedVar.bin ⟨[(0, 2), (2, 4)], DimL.X, [1, 2, 3, 4]⟩ i ++
        BinnedVar.bin (scaleBinned ⟨[(0, 2), (2, 4)], DimL.X, [1, 2, 3, 4]⟩ 3) i) := by
  constructor
  · norm_num [bucketsConcatenate, scaleBinned, BinnedVar.bin, sliceList, List.range_succ]
  · intro i
    fin_cases i <;>
      norm_num [bucketsConcatenate, scaleBinned, BinnedVar.bin, sliceList]

end Scipp

namespace Scipp

/-- C1: broadcast addition by named dimension on the S1 data: a with Dims
{Z:3, Y:2, X:1}, values [1..6], unit m, plus b with Dims {Z:3}, values
[0.1, 0.2, 0.3], unit m, gives Dims {Z:3, Y:2, X:1}, values
[1.1, 2.1, 3.2, 4.2, 5.3, 6.3], unit m (b broadcast along the Dims it lacks). -/
theorem broadcast_add_named_dims :
    plusEqualBroadcast
        ⟨unit_m, [(DimL.Z, 3), (DimL.Y, 2), (DimL.X, 1)], [1, 2, 3, 4, 5, 6]⟩
        ⟨unit_m, [(DimL.Z, 3)], [1/10, 2/10, 3/10]⟩ =
      Except.ok ⟨unit_m, [(DimL.Z, 3), (DimL.Y, 2), (DimL.X, 1)],
        [11/10, 21/10, 32/10, 42/10, 53/10, 63/10]⟩ := by
  norm_num [plusEqualBroadcast, subdims, volume, dimsShape, listProd, broadcastIndex,
    rowMajorCoords, flatIndex, coordLookup, List.range_succ]

end Scipp

namespace Scipp

/-- Any fold whose step preserves the unit preserves the unit. -/
theorem foldl_unit_invariant (f : VarU → Nat → VarU)
    (hf : ∀ a i, (f a i).unit = a.unit) :
    ∀ (l : List Nat) (a : VarU), (l.foldl f a).unit = a.unit := by
  intro l
  induction l with
  | nil => intro a; rfl
  | cons x xs ih => intro a; rw [List.foldl_cons, ih, hf]

/-- C8: `accumulate_in_place` never modifies the unit of its output variable: for
every operator and inputs, the output's unit after the call equals its unit before
(unit propagation is skipped for accumulate, unlike for transform). -/
theorem accumulate_unit_unchanged (op : ℚ → ℚ → ℚ) (var other : VarU) :
    (accumulate_in_place op var other).unit = var.unit := by
  unfold accumulate_in_place
  split
  · rfl
  · apply foldl_unit_invariant
    intro a i
    rfl

end Scipp

namespace Scipp

/-- A takeWhile prefix is no longer than the list, so the `upper_bound` index is at
most the number of edges. -/
theorem upperBound_le_length (edges : List ℚ) (x : ℚ) :
    upperBound edges x ≤ edges.length := by
  unfold upperBound
  induction edges with
  | nil => simp
  | cons a as ih =>
    rw [List.takeWhile_cons]
    split
    · simpa using ih
    · simp

/-- The linear-path acceptance condition of the code (on the fractional bin) and of
the claim (on the floored bin) agree. -/
theorem linear_accept_iff (bin : ℚ) (nbin : Nat) :
    (0 ≤ bin ∧ bin < (nbin : ℚ)) ↔ ((0 : Int) ≤ ⌊bin⌋ ∧ ⌊bin⌋ < (nbin : Int)) := by
  rw [Int.le_floor, Int.floor_lt]
  norm_num

/-- The upper-bound-path acceptance condition of the code (`it != end && it != begin`)
and of the claim (`0 ≤ it - 1 < nbin`) agree. -/
theorem upper_accept_iff (it len : Nat) (h : it ≤ len) :
    (it ≠ len ∧ it ≠ 0) ↔
      (0 ≤ (it : Int) - 1 ∧ (it : Int) - 1 < ((len - 1 : Nat) : Int)) := by
  omega

/-- The histogram kernel computes exactly the algorithm as the claim words it. -/
theorem histogram_eq_histogramClaim (events : List ℚ) (weights : WeightedData)
    (edges : List ℚ) :
    histogram events weights edges = histogramClaim events weights edges := by
  unfold histogram histogramClaim
  by_cases h1 : is_linspace edges
  · simp only [h1, if_true]
    refine congrArg Except.ok
      (congrFun (congrFun (congrArg _ (funext fun data => funext fun i => ?_)) _) _)
    dsimp only
    exact if_congr (linear_accept_iff _ _) rfl rfl
  · by_cases h2 : sorted_edges edges
    · simp only [h1, h2, if_true, Bool.false_eq_true, if_false]
      refine congrArg Except.ok
        (congrFun (congrFun (congrArg _ (funext fun data => funext fun i => ?_)) _) _)
      have hle := upperBound_le_length edges (events.getD i 0)
      have ht : ((upperBound edges (events.getD i 0) : Int) - 1).toNat =
          upperBound edges (events.getD i 0) - 1 := by omega
      rw [← ht]
      exact if_congr (upper_accept_iff _ _ hle) rfl rfl
    · simp [h1, h2]

end Scipp

namespace Scipp

/-- C2: the 1-D histogramming algorithm is exactly as claimed — linear edges bin by
`floor((x - offset)·scale)` accepting `0 ≤ bin < nbin`, otherwise sorted edges are
required (HistogramError if not) with `upper_bound` binning at `it - begin - 1` —
and on events [1,2,3,4] with weights [1,2,3,4], variances [1,2,3,4] and edges
[0,1,2,4] (non-linear spacing) the output values are [0,1,5] with variances
[0,1,5]. -/
theorem histogram_algorithm :
    (∀ events weights edges,
        histogram events weights edges = histogramClaim events weights edges) ∧
    histogram [1, 2, 3, 4] ⟨[1, 2, 3, 4], [1, 2, 3, 4]⟩ [0, 1, 2, 4] =
      Except.ok ⟨[0, 1, 5], [0, 1, 5]⟩ ∧
    histogram [] ⟨[], []⟩ [1, 0, 2] = Except.error ScippError.HistogramError := by
  refine ⟨histogram_eq_histogramClaim, ?_, ?_⟩
  · have u1 : upperBound [0, 1, 2, 4] 1 = 2 := by
      norm_num [upperBound, List.takeWhile_cons]
    have u2 : upperBound [0, 1, 2, 4] 2 = 3 := by
      norm_num [upperBound, List.takeWhile_cons]
    have u3 : upperBound [0, 1, 2, 4] 3 = 3 := by
      norm_num [upperBound, List.takeWhile_cons]
    have u4 : upperBound [0, 1, 2, 4] 4 = 4 := by
      norm_num [upperBound, List.takeWhile_cons]
    norm_num [histogram, is_linspace, constantSpacing, sorted_edges,
      WeightedData.addAt, List.range_succ, u1, u2, u3, u4, List.getD,
      List.replicate_succ, List.set_cons_zero, List.set_cons_succ]
  · norm_num [histogram, is_linspace, constantSpacing, sorted_edges]

end Scipp

namespace Scipp

/-- The histogram value kernel can only fail with HistogramError, never with a unit
error. -/
theorem histogram_no_uniterror (events : List ℚ) (weights : WeightedData)
    (edges : List ℚ) :
    histogram events weights edges ≠ Except.error ScippError.UnitError := by
  unfold histogram
  split
  · intro h
    exact Except.noConfusion h
  · split
    · intro h
      exact Except.noConfusion h
    · intro h
      cases h

/-- C6: histogramming raises UnitError, before any output is produced, iff a unit
precondition fails — the edge unit must equal the event coordinate unit and the
weights unit must be counts or dimensionless — and when the preconditions hold the
output unit is the weights unit. -/
theorem histogram_unit_preconditions :
    (∀ eu wu du, (histogramUnit eu wu du = Except.error ScippError.UnitError) ↔
        (eu ≠ du ∨ (wu ≠ unit_counts ∧ wu ≠ unit_one))) ∧
    (∀ eu wu du, eu = du → (wu = unit_counts ∨ wu = unit_one) →
        histogramUnit eu wu du = Except.ok wu) ∧
    (∀ events eu weights wu edges du,
        (histogramWithUnits events eu weights wu edges du =
            Except.error ScippError.UnitError) ↔
          (eu ≠ du ∨ (wu ≠ unit_counts ∧ wu ≠ unit_one))) ∧
    (∀ events eu weights wu edges du d u,
        histogramWithUnits events eu weights wu edges du = Except.ok (d, u) →
          u = wu) := by
  have hunit : ∀ eu wu du,
      (histogramUnit eu wu du = Except.error ScippError.UnitError) ↔
        (eu ≠ du ∨ (wu ≠ unit_counts ∧ wu ≠ unit_one)) := by
    intro eu wu du
    unfold histogramUnit
    by_cases h1 : eu = du
    · by_cases h2 : wu = unit_counts
      · simp [h1, h2]
      · by_cases h3 : wu = unit_one
        · simp [h1, h2, h3]
        · simp [h1, h2, h3]
    · simp [h1]
  have hok : ∀ eu wu du, eu = du → (wu = unit_counts ∨ wu = unit_one) →
      histogramUnit eu wu du = Except.ok wu := by
    intro eu wu du h1 h2
    unfold histogramUnit
    rcases h2 with h2 | h2 <;> simp [h1, h2]
  have huval : ∀ eu wu du u, histogramUnit eu wu du = Except.ok u → u = wu := by
    intro eu wu du u h
    unfold histogramUnit at h
    revert h
    split
    · intro h
      cases h
    · split
      · intro h
        cases h
      · intro h
        cases h
        rfl
  refine ⟨hunit, hok, ?_, ?_⟩
  · intro events eu weights wu edges du
    unfold histogramWithUnits
    rw [← hunit eu wu du]
    rcases hu : histogramUnit eu wu du with e | u
    · have hz : (do
          let u ← (Except.error e : Except ScippError SUnit)
          let d ← histogram events weights edges
          pure (d, u)) = (Except.error e : Except ScippError (WeightedData × SUnit)) :=
        rfl
      rw [hz]
      constructor
      · intro h
        injection h with h3
        rw [h3]
      · intro h
        injection h with h3
        rw [h3]
    · constructor
      · intro h
        exfalso
        have h' : (histogram events weights edges >>= fun d =>
            (pure (d, u) : Except ScippError (WeightedData × SUnit))) =
            Except.error ScippError.UnitError := h
        rcases hd : histogram events weights edges with e | dd
        · rw [hd] at h'
          have h2 : (Except.error e : Except ScippError (WeightedData × SUnit)) =
              Except.error ScippError.UnitError := h'
          injection h2 with h3
          exact histogram_no_uniterror events weights edges (by rw [hd, h3])
        · rw [hd] at h'
          have h2 : (Except.ok (dd, u) : Except ScippError (WeightedData × SUnit)) =
              Except.error ScippError.UnitError := h'
          exact Except.noConfusion h2
      · intro h
        exact Except.noConfusion h
  · intro events eu weights wu edges du d u h
    unfold histogramWithUnits at h
    rcases hu : histogramUnit eu wu du with e | u' <;> rw [hu] at h
    · have h2 : (Except.error e : Except ScippError (WeightedData × SUnit)) =
          Except.ok (d, u) := h
      exact Except.noConfusion h2
    · have h' : (histogram events weights edges >>= fun dd =>
          (pure (dd, u') : Except ScippError (WeightedData × SUnit))) =
          Except.ok (d, u) := h
      rcases hd : histogram events weights edges with e | dd <;> rw [hd] at h'
      · have h2 : (Except.error e : Except ScippError (WeightedData × SUnit)) =
            Except.ok (d, u) := h'
        exact Except.noConfusion h2
      · have h2 : (Except.ok (dd, u') : Except ScippError (WeightedData × SUnit)) =
            Except.ok (d, u) := h'
        injection h2 with h3
        have h4 : u' = u := congrArg Prod.snd h3
        rw [← h4]
        exact huval eu wu du u' hu

/-- Witness for C6: with event and edge units both `m` and weights unit `counts`
over edges `[0, 1]`, the unit preconditions hold and the unit kernel returns the
weights unit. -/
theorem histogram_unit_preconditions_witness :
    histogramUnit unit_m unit_counts unit_m = Except.ok unit_counts :=
  histogram_unit_preconditions.2.1 unit_m unit_counts unit_m rfl (Or.inl rfl)

end Scipp
